import Mathlib

/-!
Shallow embedding of the nebula `cert` package (src/cert/cert_v1.go and
src/cert/sign.go).

Modelling conventions:
* machine integers are `Nat` (or `Int` for signed values) with explicit
  reductions modulo `2 ^ 32` where the Go code truncates to 4 bytes;
* byte strings (`[]byte`) are `List Nat`, with each byte `< 256` wherever the
  code constructs one;
* `time.Time` values are represented by their Unix seconds as `Int`, the only
  observation the V1 codec and `Expired` make of them;
* fallible Go code returns `Option`/`Except`; a Go panic that aborts the call
  (slice-bounds / `As4` on a genuine IPv6 address) is modelled as `none` or a
  dedicated error constructor, documented at the definition site;
* the protobuf layer (`RawNebulaCertificate`, generated code that is not under
  src/) is modelled from the spec (section 6) as a lossless structured envelope:
  the wire bytes of a message are represented by the message value itself.

The Go field and function names are kept wherever Lean allows; the
`unsafeNetworks` field is rendered as `subnets` (its V1 wire name) throughout.
-/

namespace NebulaCert

/-- Three-way comparison on `Nat`, returning `-1`, `0` or `1` as an `Int`. -/
def natCmp (a b : Nat) : Int :=
  if a < b then -1 else if b < a then 1 else 0

/-- Big-endian numeric value of a byte list (`encoding/binary.BigEndian`);
bytes are reduced mod 256 for totality, a no-op on real byte values. -/
def beNat (l : List Nat) : Nat :=
  l.foldl (fun a b => a * 256 + b % 256) 0

/-- Model of `net/netip.Addr`: `v4` is a 4-byte (family-4) address, `v6` a
16-byte address (including the IPv4-mapped `::ffff:0:0/96` range), `invalid`
the zero `Addr`.  The payload is the big-endian numeric value. -/
inductive NetipAddr where
  | invalid
  | v4 (n : Nat)
  | v6 (n : Nat)
deriving DecidableEq

/-- `Addr.BitLen`: 0 for the zero value, 32 for 4-byte, 128 for 16-byte. -/
def NetipAddr.bitLen : NetipAddr → Nat
  | .invalid => 0
  | .v4 _ => 32
  | .v6 _ => 128

/-- Numeric value of the address, used by `Addr.Compare`. -/
def NetipAddr.val : NetipAddr → Nat
  | .invalid => 0
  | .v4 n => n
  | .v6 n => n

/-- `Addr.Unmap`: rewrites an IPv4-mapped 16-byte address to its 4-byte form. -/
def NetipAddr.unmap : NetipAddr → NetipAddr
  | .v6 n => if n / 2 ^ 32 = 0xffff then .v4 (n % 2 ^ 32) else .v6 n
  | a => a

/-- `Addr.As4`: the 4-byte value; `none` models the panic on an address that is
neither 4-byte nor IPv4-mapped. -/
def NetipAddr.as4 : NetipAddr → Option Nat
  | .v4 n => some (n % 2 ^ 32)
  | .v6 n => if n / 2 ^ 32 = 0xffff then some (n % 2 ^ 32) else none
  | .invalid => none

/-- `Addr.Compare`: first by family (bit length), then by numeric value. -/
def NetipAddr.compareAddr (a b : NetipAddr) : Int :=
  if natCmp a.bitLen b.bitLen = 0 then natCmp a.val b.val
  else natCmp a.bitLen b.bitLen

/-- Model of `net/netip.Prefix`: an address together with `Bits()`
(which is `-1` for the invalid zero value). -/
structure NetPfx where
  addr : NetipAddr
  bits : Int
deriving DecidableEq

/-- `netip.PrefixFrom`: the zero (invalid) value unless `0 ≤ b ≤ a.BitLen()`. -/
def pfxFrom (a : NetipAddr) (b : Int) : NetPfx :=
  if 0 ≤ b ∧ b ≤ (a.bitLen : Int) then ⟨a, b⟩ else ⟨.invalid, -1⟩

/-- `comparePrefix` from src/cert/sign.go: compare the addresses; on a tie,
the difference of the prefix lengths. -/
def comparePfx (a b : NetPfx) : Int :=
  if NetipAddr.compareAddr a.addr b.addr = 0 then a.bits - b.bits
  else NetipAddr.compareAddr a.addr b.addr

/-- The non-strict order induced by `comparePfx`. -/
def pfxLe (a b : NetPfx) : Prop := comparePfx a b ≤ 0

instance : DecidableRel pfxLe := fun a b =>
  inferInstanceAs (Decidable (comparePfx a b ≤ 0))

/-- `slices.SortFunc(l, comparePrefix)`: the Go sort is unstable, but
`comparePfx` only ties on equal elements (see `comparePfx_eq_zero_iff`), so the
sorted permutation is unique and any sorting algorithm is an extensionally
faithful model; insertion sort is used for kernel computability. -/
def sortPfxs (l : List NetPfx) : List NetPfx :=
  List.insertionSort pfxLe l

theorem natCmp_le_zero_iff {a b : Nat} : natCmp a b ≤ 0 ↔ a ≤ b := by
  unfold natCmp; split <;> rename_i h
  · omega
  · split <;> omega

theorem natCmp_eq_zero_iff {a b : Nat} : natCmp a b = 0 ↔ a = b := by
  unfold natCmp; split <;> rename_i h
  · omega
  · split <;> omega

theorem compareAddr_eq_zero_iff {a b : NetipAddr} :
    NetipAddr.compareAddr a b = 0 ↔ a = b := by
  constructor
  · intro h
    unfold NetipAddr.compareAddr at h
    split at h <;> rename_i hf
    · have hbl := natCmp_eq_zero_iff.mp hf
      have hv := natCmp_eq_zero_iff.mp h
      cases a <;> cases b <;>
        simp_all [NetipAddr.bitLen, NetipAddr.val]
    · exact absurd h hf
  · rintro rfl
    simp [NetipAddr.compareAddr, natCmp_eq_zero_iff]

theorem compareAddr_le_zero_iff {a b : NetipAddr} :
    NetipAddr.compareAddr a b ≤ 0 ↔
      a.bitLen < b.bitLen ∨ (a.bitLen = b.bitLen ∧ a.val ≤ b.val) := by
  unfold NetipAddr.compareAddr
  rcases Nat.lt_trichotomy a.bitLen b.bitLen with h | h | h
  · have h1 : natCmp a.bitLen b.bitLen = -1 := by unfold natCmp; split <;> omega
    simp [h1, h]
  · have h1 : natCmp a.bitLen b.bitLen = 0 := natCmp_eq_zero_iff.mpr h
    rw [h1, if_pos rfl]
    simp only [natCmp_le_zero_iff]
    constructor
    · intro hv; exact Or.inr ⟨h, hv⟩
    · rintro (hc | ⟨_, hc⟩) <;> omega
  · have h1 : natCmp a.bitLen b.bitLen = 1 := by unfold natCmp; split <;> omega
    have : ¬ a.bitLen < b.bitLen := by omega
    simp [h1, this]
    omega

theorem comparePfx_le_zero_iff {a b : NetPfx} :
    comparePfx a b ≤ 0 ↔
      a.addr.bitLen < b.addr.bitLen ∨
        (a.addr.bitLen = b.addr.bitLen ∧ a.addr.val < b.addr.val) ∨
        (a.addr.bitLen = b.addr.bitLen ∧ a.addr.val = b.addr.val ∧
          a.bits ≤ b.bits) := by
  unfold comparePfx
  split <;> rename_i h
  · unfold NetipAddr.compareAddr at h
    split at h <;> rename_i hf
    · have hbl := natCmp_eq_zero_iff.mp hf
      have hv := natCmp_eq_zero_iff.mp h
      constructor
      · intro hb; exact Or.inr (Or.inr ⟨hbl, hv, by omega⟩)
      · rintro (hc | ⟨_, hc⟩ | ⟨_, _, hc⟩) <;> omega
    · exact absurd h hf
  · rw [compareAddr_le_zero_iff]
    unfold NetipAddr.compareAddr at h
    constructor
    · rintro (hc | ⟨hbl, hv⟩)
      · exact Or.inl hc
      · rcases Nat.lt_or_ge a.addr.val b.addr.val with hv2 | hv2
        · exact Or.inr (Or.inl ⟨hbl, hv2⟩)
        · exfalso; apply h
          rw [natCmp_eq_zero_iff.mpr hbl, if_pos rfl, natCmp_eq_zero_iff]
          omega
    · rintro (hc | ⟨hbl, hv⟩ | ⟨hbl, hv, _⟩)
      · exact Or.inl hc
      · exact Or.inr ⟨hbl, by omega⟩
      · exfalso; apply h
        rw [natCmp_eq_zero_iff.mpr hbl, if_pos rfl, natCmp_eq_zero_iff.mpr hv]

theorem comparePfx_eq_zero_iff {a b : NetPfx} : comparePfx a b = 0 ↔ a = b := by
  constructor
  · intro h
    unfold comparePfx at h
    split at h <;> rename_i hf
    · have ha := compareAddr_eq_zero_iff.mp hf
      have : a.bits = b.bits := by omega
      cases a; cases b; simp_all
    · exact absurd h hf
  · rintro rfl
    simp [comparePfx, compareAddr_eq_zero_iff.mpr rfl]

instance : IsTotal NetPfx pfxLe :=
  ⟨fun a b => by
    unfold pfxLe
    rw [comparePfx_le_zero_iff, comparePfx_le_zero_iff]
    omega⟩

instance : IsTrans NetPfx pfxLe :=
  ⟨fun a b c hab hbc => by
    unfold pfxLe at *
    rw [comparePfx_le_zero_iff] at *
    omega⟩

instance : IsAntisymm NetPfx pfxLe :=
  ⟨fun a b hab hba => by
    unfold pfxLe at *
    apply comparePfx_eq_zero_iff.mp
    rw [comparePfx_le_zero_iff] at hab hba
    unfold comparePfx NetipAddr.compareAddr
    have hbl : a.addr.bitLen = b.addr.bitLen := by omega
    have hv : a.addr.val = b.addr.val := by omega
    rw [natCmp_eq_zero_iff.mpr hbl, if_pos rfl, natCmp_eq_zero_iff.mpr hv,
      if_pos rfl]
    omega⟩

/-- Go's `copy(dst, src)` for byte slices: overwrite the first
`min dst.length src.length` bytes of `dst` with those of `src`, keeping
`dst`'s length; the value is the resulting contents of `dst`. -/
def goCopy (dst src : List Nat) : List Nat :=
  src.take dst.length ++ dst.drop src.length

/-- `int2ip`: the 4 big-endian bytes of a uint32. -/
def int2ip (nn : Nat) : List Nat :=
  [nn / 2 ^ 24 % 256, nn / 2 ^ 16 % 256, nn / 2 ^ 8 % 256, nn % 256]

/-- `ip2int`: big-endian uint32 of bytes 12..15 of a 16-byte IP, else of the
first 4 bytes; `none` models the panic when fewer than 4 bytes are given
(in particular on the nil mask `net.CIDRMask` returns for invalid input). -/
def ip2int (ip : List Nat) : Option Nat :=
  if ip.length = 16 then some (beNat ((ip.drop 12).take 4))
  else if 4 ≤ ip.length then some (beNat (ip.take 4))
  else none

/-- `addr2int`: `Unmap` then `As4` then big-endian uint32; `none` models the
`As4` panic on a genuine (non-mapped) IPv6 address. -/
def addr2int (addr : NetipAddr) : Option Nat :=
  addr.unmap.as4

/-- `int2addr`: `AddrFrom4` of the 4 big-endian bytes, then `Unmap` (a no-op on
a 4-byte address). -/
def int2addr (nn : Nat) : NetipAddr :=
  (NetipAddr.v4 (nn % 2 ^ 32)).unmap

/-- `net.CIDRMask(ones, bits)`: defined only for 32- or 128-bit masks with
`0 ≤ ones ≤ bits`; `none` models Go's nil result. -/
def cidrMask (ones : Int) (bits : Nat) : Option (List Nat) :=
  if (bits = 32 ∨ bits = 128) ∧ 0 ≤ ones ∧ ones ≤ (bits : Int) then
    some ((List.range (bits / 8)).map fun i =>
      256 - 2 ^ (8 - min (ones.toNat - 8 * i) 8))
  else none

/-- Leading-ones count of one canonical mask byte (`none` if the byte is not of
the form 1…10…0). -/
def leadingOnesByte (b : Nat) : Option Nat :=
  (List.range 9).find? fun k => b == 256 - 2 ^ (8 - k)

/-- The `ones` result of `net.IPMask.Size`: the number of leading one bits of a
canonical mask, and 0 when the mask is non-canonical (Go returns `0, 0`). -/
def maskOnes : List Nat → Option Nat
  | [] => some 0
  | b :: rest =>
    if b = 255 then (maskOnes rest).map (· + 8)
    else
      match leadingOnesByte b with
      | some k => if rest.all (· == 0) then some k else none
      | none => none

/-- `hex` digit value: accepts 0-9, a-f and A-F like `encoding/hex`. -/
def hexDigitVal (c : Char) : Option Nat :=
  if '0' ≤ c ∧ c ≤ '9' then some (c.toNat - 48)
  else if 'a' ≤ c ∧ c ≤ 'f' then some (c.toNat - 97 + 10)
  else if 'A' ≤ c ∧ c ≤ 'F' then some (c.toNat - 65 + 10)
  else none

/-- Decode hex digit pairs, stopping at the first invalid digit or odd tail
(the bytes decoded so far are returned, matching `hex.Decode`'s behaviour on
error). -/
def hexDecodeChars : List Char → List Nat
  | c1 :: c2 :: rest =>
    match hexDigitVal c1, hexDigitVal c2 with
    | some hi, some lo => (16 * hi + lo) :: hexDecodeChars rest
    | _, _ => []
  | _ => []

/-- `encoding/hex.DecodeString` as the V1 codec uses it (error ignored, see the
`rd.Issuer, _ = hex.DecodeString(...)` line): the longest decoded prefix. -/
def hexDecode (s : String) : List Nat :=
  hexDecodeChars s.data

/-- `encoding/hex.EncodeToString`: two lowercase hex digits per byte. -/
def hexEncode (bs : List Nat) : String :=
  String.mk (bs.flatMap fun b => [Nat.digitChar (b / 16 % 16), Nat.digitChar (b % 16)])

/-- Modelled from the spec: `RawNebulaCertificateDetails`, the protobuf details
message (generated code, not under src/).  Section 6 specifies the envelope as a
lossless structured encoding of exactly these fields, so wire bytes are
modelled by the message value itself. -/
structure RawNebulaCertificateDetails where
  Name : String
  Ips : List Nat
  Subnets : List Nat
  Groups : List String
  NotBefore : Int
  NotAfter : Int
  PublicKey : List Nat
  IsCA : Bool
  Issuer : List Nat
  Curve : Nat
deriving DecidableEq

/-- Modelled from the spec: `RawNebulaCertificate`, the outer protobuf envelope
(details section plus signature bytes); generated code, not under src/.
`Details = none` models a nil `Details` pointer. -/
structure RawNebulaCertificate where
  Details : Option RawNebulaCertificateDetails
  Signature : List Nat
deriving DecidableEq

/-- The zero protobuf message encodes to zero bytes; the decoder's
`len(b) == 0` check therefore fires exactly on this wire value. -/
def emptyWire (b : RawNebulaCertificate) : Prop :=
  b.Details = none ∧ b.Signature = []

instance (b : RawNebulaCertificate) : Decidable (emptyWire b) :=
  inferInstanceAs (Decidable (_ ∧ _))

/-- `detailsV1` from src/cert/cert_v1.go; `subnets` is the `unsafeNetworks`
field under its V1 wire name, and the two times are their Unix seconds. -/
structure detailsV1 where
  name : String
  networks : List NetPfx
  subnets : List NetPfx
  groups : List String
  notBefore : Int
  notAfter : Int
  publicKey : List Nat
  isCA : Bool
  issuer : String
  curve : Nat
deriving DecidableEq

/-- `certificateV1` from src/cert/cert_v1.go. -/
structure certificateV1 where
  details : detailsV1
  signature : List Nat
deriving DecidableEq

/-- One loop iteration of `getRawDetails` for a network entry: the
`(addr2int(addr), ip2int(CIDRMask(bits, addr.BitLen())))` pair; `none` models
the panic on a genuine IPv6 address or on a nil mask. -/
def rawPairOf (p : NetPfx) : Option (Nat × Nat) := do
  let mask := cidrMask p.bits p.addr.bitLen
  let a ← addr2int p.addr
  let m ← mask
  let mi ← ip2int m
  pure (a, mi)

/-- The flattened address/mask list `getRawDetails` builds from a network
list. -/
def encodePairs : List NetPfx → Option (List Nat)
  | [] => some []
  | p :: rest => do
    let (a, mi) ← rawPairOf p
    let r ← encodePairs rest
    pure (a :: mi :: r)

/-- `getRawDetails` from src/cert/cert_v1.go: build the protobuf-ready details.
The `make`+`copy` of the public key yields an equal byte list and is modelled
by the list itself; the issuer hex-decode ignores its error (see `hexDecode`). -/
def getRawDetails (d : detailsV1) : Option RawNebulaCertificateDetails := do
  let ips ← encodePairs d.networks
  let subs ← encodePairs d.subnets
  pure { Name := d.name, Ips := ips, Subnets := subs, Groups := d.groups,
         NotBefore := d.notBefore, NotAfter := d.notAfter,
         PublicKey := d.publicKey, IsCA := d.isCA,
         Issuer := hexDecode d.issuer, Curve := d.curve }

/-- `Marshal` from src/cert/cert_v1.go: wrap details and signature in the outer
envelope.  `none` models the panic on a genuine IPv6 network address. -/
def Marshal (c : certificateV1) : Option RawNebulaCertificate :=
  (getRawDetails c.details).map fun rd => { Details := some rd, Signature := c.signature }

/-- `MarshalForHandshakes` from src/cert/cert_v1.go.  The Go method temporarily
nils the receiver's public key, marshals, and restores the key; the model
returns the marshalled envelope together with the receiver's value after the
call.  `none` models the marshal panic (the call never returns and the
`err != nil` early return is unreachable here: `proto.Marshal` cannot fail on
this message in the model, where strings are valid UTF-8 by construction). -/
def MarshalForHandshakes (c : certificateV1) :
    Option (RawNebulaCertificate × certificateV1) :=
  let c1 : certificateV1 := { c with details := { c.details with publicKey := [] } }
  match Marshal c1 with
  | none => none
  | some raw => some (raw, { c1 with details := { c1.details with publicKey := c.details.publicKey } })

/-- Modelled from the spec: SHA-256 (external crypto primitive, §4.1/§4.3),
applied to the marshalled envelope.  Only determinism and the 32-byte,
byte-valued output are relied upon by any theorem below. -/
def sha256Model (rc : RawNebulaCertificate) : List Nat :=
  let seed := rc.Signature.foldl (fun a b => (a * 131 + b) % 256)
    ((match rc.Details with
      | none => 3
      | some rd => rd.Ips.length + rd.PublicKey.length + 5) % 256)
  (List.range 32).map fun i => (seed + i) % 256

/-- `Fingerprint` from src/cert/cert_v1.go: lowercase hex of the SHA-256 of the
full `Marshal` output. -/
def Fingerprint (c : certificateV1) : Option String :=
  (Marshal c).map fun rc => hexEncode (sha256Model rc)

/-- Error kinds surfaced by the `cert` package (one constructor per distinct
`fmt.Errorf` site reached by the modelled code, plus carriers for errors of the
external constraint checker and signer, and a marker for propagated panics). -/
inductive CertError where
  | curveMismatchKey
  | caSignedByAnother
  | selfSignedNotCA
  | issuerComputeFailed
  | unknownVersion (v : Nat)
  | nilByteArray
  | detailsNil
  | oddIps
  | oddSubnets
  | pkclientNil
  | onlyP256Pkcs11
  | invalidCurve (c : Nat)
  | ed25519KeyNot64Bytes
  | badP256PrivateKey
  | x25519Failed
  | pubKeyMismatch
  | caViolation (k : Nat)
  | signerFailed (k : Nat)
  | marshalPanicked
deriving DecidableEq

instance {ε α : Type} [DecidableEq ε] [DecidableEq α] : DecidableEq (Except ε α) := by
  intro a b
  cases a <;> cases b
  case error.error e1 e2 =>
    exact if h : e1 = e2 then .isTrue (by rw [h]) else .isFalse (by simp [h])
  case error.ok => exact .isFalse (by simp)
  case ok.error => exact .isFalse (by simp)
  case ok.ok a1 a2 =>
    exact if h : a1 = a2 then .isTrue (by rw [h]) else .isFalse (by simp [h])

/-- The decode loop of `unmarshalCertificateV1` over a flattened address/mask
list: even indices give the address, odd indices the mask whose leading-ones
count becomes the prefix length (`Size` returning `0, 0` on a non-canonical
mask is the `getD 0`). -/
def decodePairs : List Nat → List NetPfx
  | a :: mi :: rest =>
    pfxFrom (int2addr a) (((maskOnes (int2ip mi)).getD 0 : Nat) : Int)
      :: decodePairs rest
  | _ => []

/-- `unmarshalCertificateV1` from src/cert/cert_v1.go.  The input is the decoded
protobuf envelope (see `RawNebulaCertificate`); `emptyWire` is the zero message,
whose encoding is the empty byte string rejected by the `len(b) == 0` check.
Note the public-key handling: the field is first aliased to the caller's
`publicKey` when that is non-empty, and the decoded key bytes are then copied
over it. -/
def unmarshalCertificateV1 (b : RawNebulaCertificate) (publicKey : List Nat) :
    Except CertError certificateV1 :=
  if emptyWire b then .error .nilByteArray
  else
    match b.Details with
    | none => .error .detailsNil
    | some rd =>
      if rd.Ips.length % 2 ≠ 0 then .error .oddIps
      else if rd.Subnets.length % 2 ≠ 0 then .error .oddSubnets
      else
        let pk0 := if publicKey.length > 0 then publicKey
                   else List.replicate rd.PublicKey.length 0
        .ok { details := { name := rd.Name,
                           networks := decodePairs rd.Ips,
                           subnets := decodePairs rd.Subnets,
                           groups := rd.Groups,
                           notBefore := rd.NotBefore,
                           notAfter := rd.NotAfter,
                           publicKey := goCopy pk0 rd.PublicKey,
                           isCA := rd.IsCA,
                           issuer := hexEncode rd.Issuer,
                           curve := rd.Curve },
              signature := b.Signature }

/-- `Expired` from src/cert/cert_v1.go: `notBefore.After(t) || notAfter.Before(t)`
on Unix seconds. -/
def Expired (c : certificateV1) (t : Int) : Bool :=
  decide (c.details.notBefore > t) || decide (c.details.notAfter < t)

/-- Wire tag of `Curve_CURVE25519` (proto enum value 0). -/
def Curve_CURVE25519 : Nat := 0

/-- Wire tag of `Curve_P256` (proto enum value 1). -/
def Curve_P256 : Nat := 1

/-- `TBSCertificate` from src/cert/sign.go; `Subnets` is the `UnsafeNetworks`
field under its V1 wire name, times are Unix seconds, and `issuer` is the
package-private field populated during signing. -/
structure TBSCertificate where
  Version : Nat
  Name : String
  Networks : List NetPfx
  Subnets : List NetPfx
  Groups : List String
  IsCA : Bool
  NotBefore : Int
  NotAfter : Int
  PublicKey : List Nat
  Curve : Nat
  issuer : String
deriving DecidableEq

/-- `fromTBSCertificate` from src/cert/cert_v1.go: copy every field (including
the already-populated issuer) into the V1 details; the Go method always
returns a nil error. -/
def fromTBSCertificate (t : TBSCertificate) : detailsV1 :=
  { name := t.Name, networks := t.Networks, subnets := t.Subnets,
    groups := t.Groups, notBefore := t.NotBefore, notAfter := t.NotAfter,
    publicKey := t.PublicKey, isCA := t.IsCA, issuer := t.issuer,
    curve := t.Curve }

/-- Modelled from the spec: `certificateV2`'s details.  The V2 codec lives in
the repo but not under src/; by §9's shared `beingSignedCertificate` contract
its `fromTBSCertificate` copies the fields verbatim, which is all any theorem
below uses of it. -/
structure detailsV2 where
  name : String
  networks : List NetPfx
  subnets : List NetPfx
  groups : List String
  notBefore : Int
  notAfter : Int
  publicKey : List Nat
  isCA : Bool
  issuer : String
  curve : Nat
deriving DecidableEq

/-- Modelled from the spec: `certificateV2` (repo code not under src/). -/
structure certificateV2 where
  details : detailsV2
  signature : List Nat
deriving DecidableEq

/-- The to-be-signed bytes handed to a signer predicate.  For V1 these are
`proto.Marshal(getRawDetails())`, modelled by the details message; the V2 wire
shape is unspecified by the available material and is modelled by the copied
details record itself (only determinism of the encoding is used). -/
inductive SigningInput where
  | v1 (rd : RawNebulaCertificateDetails)
  | v2 (d : detailsV2)
deriving DecidableEq

/-- `marshalForSigning` from src/cert/cert_v1.go:
`proto.Marshal(c.getRawDetails())`; `none` models the panic on a genuine IPv6
network address. -/
def marshalForSigningV1 (c : certificateV1) : Option SigningInput :=
  (getRawDetails c.details).map .v1

/-- The sealed result of signing: Go's `Certificate` interface over the
per-version structs. -/
inductive SignedCert where
  | v1 (c : certificateV1)
  | v2 (c : certificateV2)
deriving DecidableEq

/-- Modelled from the spec: the V2 fingerprint digest (V2 codec not under
src/); a deterministic 32-byte digest of the certificate, per §3's
`Fingerprint` contract. -/
def sha256V2Model (c : certificateV2) : List Nat :=
  (List.range 32).map fun i =>
    (c.details.name.length + c.signature.length + c.details.publicKey.length + i) % 256

/-- `Fingerprint` dispatched over the certificate version (the V2 side is
modelled from the spec, see `sha256V2Model`). -/
def fingerprintSC : SignedCert → Option String
  | .v1 c => Fingerprint c
  | .v2 c => some (hexEncode (sha256V2Model c))

/-- Type of `checkCAConstraints`.  Modelled from the spec: the CA-issuance
constraint validation is an external collaborator (its code is not under src/);
§4.2 obliges the core only to call it with the issuer certificate and the
candidate's window, groups, networks and unsafe-networks and to propagate its
error verbatim, so it is a parameter of the signing pipeline. -/
def ConstraintChecker : Type :=
  SignedCert → Int → Int → List String → List NetPfx → List NetPfx → Option CertError

/-- Signer predicates (`SignerPredicate` in src/cert/sign.go). -/
def SignerPred : Type :=
  SigningInput → Except CertError (List Nat)

/-- The issuer-resolution block of `SignWithPredicate` (src/cert/sign.go lines
104-123): with a signer, reject a CA, run the constraint check on the
*unsorted* lists, and compute the issuer fingerprint; without one, reject a
non-CA and keep the (zero-valued) issuer field. -/
def issuerStep (t : TBSCertificate) (signer : Option SignedCert)
    (chk : ConstraintChecker) : Except CertError String :=
  match signer with
  | some s =>
    if t.IsCA then .error .caSignedByAnother
    else
      match chk s t.NotBefore t.NotAfter t.Groups t.Networks t.Subnets with
      | some e => .error e
      | none =>
        match fingerprintSC s with
        | none => .error .issuerComputeFailed
        | some fp => .ok fp
  | none => if t.IsCA then .ok t.issuer else .error .selfSignedNotCA

/-- Modelled from the spec: the V2 `fromTBSCertificate` (repo code not under
src/): per §9's shared contract it copies the builder's fields verbatim. -/
def detailsV2OfTBS (t1 : TBSCertificate) : detailsV2 :=
  { name := t1.Name, networks := t1.Networks, subnets := t1.Subnets,
    groups := t1.Groups, notBefore := t1.NotBefore, notAfter := t1.NotAfter,
    publicKey := t1.PublicKey, isCA := t1.IsCA, issuer := t1.issuer,
    curve := t1.Curve }

/-- The version dispatch and signing tail of `SignWithPredicate` (src/cert/sign.go
lines 128-167), applied to the already-sorted, issuer-populated value. -/
def buildAndSign (t1 : TBSCertificate) (sp : SignerPred) :
    Except CertError SignedCert :=
  match t1.Version with
  | 1 =>
    match marshalForSigningV1 { details := fromTBSCertificate t1, signature := [] } with
    | none => .error .marshalPanicked
    | some input =>
      match sp input with
      | .error e => .error e
      | .ok sig => .ok (.v1 { details := fromTBSCertificate t1, signature := sig })
  | 2 =>
    match sp (.v2 (detailsV2OfTBS t1)) with
    | .error e => .error e
    | .ok sig => .ok (.v2 { details := detailsV2OfTBS t1, signature := sig })
  | v => .error (.unknownVersion v)

/-- `SignWithPredicate` from src/cert/sign.go.  The caller's `t` is mutated in
Go (issuer field, in-place sorts); the pure model applies the same updates to a
local copy before dispatch (the aliasing itself is settled on the reference
model below). -/
def signWithPredicate (t : TBSCertificate) (signer : Option SignedCert)
    (curve : Nat) (chk : ConstraintChecker) (sp : SignerPred) :
    Except CertError SignedCert :=
  if curve ≠ t.Curve then .error .curveMismatchKey
  else
    match issuerStep t signer chk with
    | .error e => .error e
    | .ok iss =>
      buildAndSign
        { t with issuer := iss,
                 Networks := sortPfxs t.Networks,
                 Subnets := sortPfxs t.Subnets } sp

/-- `SignPkcs11` from src/cert/sign.go: the PKCS#11 client is modelled by its
`SignASN1` predicate (`none` = nil client). -/
def SignPkcs11 (t : TBSCertificate) (signer : Option SignedCert) (curve : Nat)
    (chk : ConstraintChecker) (client : Option SignerPred) :
    Except CertError SignedCert :=
  match client with
  | none => .error .pkclientNil
  | some cl =>
    if t.Curve = Curve_CURVE25519 then .error .onlyP256Pkcs11
    else if t.Curve = Curve_P256 then signWithPredicate t signer curve chk cl
    else .error (.invalidCurve t.Curve)

/-- Modelled from the spec: `crypto/ed25519`'s private-key layout (external
primitive): a 64-byte private key is seed ‖ public key, so `Public()` is the
trailing 32 bytes. -/
def ed25519PublicOf (key : List Nat) : List Nat :=
  key.drop 32

/-- Modelled from the spec: the curve25519 scalar-basepoint multiplication
(§4.4's key-agreement public value, external primitive).  Only determinism is
relied upon. -/
def x25519Fn (key : List Nat) : List Nat :=
  (List.range 32).map fun i => (key.foldl (fun a b => (a * 37 + b) % 256) i) % 256

/-- Modelled from the spec: `curve25519.X25519(key, Basepoint)` (external
primitive): fails unless the scalar is exactly 32 bytes (with the base point
the all-zero-output failure cannot occur). -/
def x25519Base (key : List Nat) : Except CertError (List Nat) :=
  if key.length = 32 then .ok (x25519Fn key) else .error .x25519Failed

/-- The order of the NIST P-256 base point. -/
def p256Order : Nat :=
  115792089210356248762697446949407573529996955224135760342422259061068512044369

/-- Modelled from the spec: the P-256 public-key derivation (external
primitive); a deterministic 65-byte uncompressed point.  Only determinism is
relied upon. -/
def p256PubFn (key : List Nat) : List Nat :=
  4 :: ((List.range 64).map fun i =>
    (key.foldl (fun a b => (a * 41 + b) % 256) (i + 1)) % 256)

/-- Modelled from the spec: `ecdh.P256().NewPrivateKey` followed by
`.PublicKey().Bytes()` (external primitive): the key must be exactly 32 bytes
whose big-endian value lies in `[1, order-1]`. -/
def p256NewPrivateKey (key : List Nat) : Except CertError (List Nat) :=
  if key.length = 32 ∧ 0 < beNat key ∧ beNat key < p256Order then
    .ok (p256PubFn key)
  else .error .badP256PrivateKey

/-- `VerifyPrivateKey` from src/cert/cert_v1.go, branch for branch: curve
mismatch first; CA certificates derive the signing public key (Ed25519 suffix
or P-256 point), non-CA certificates derive the key-agreement public value
(X25519 or P-256 point); each comparison failure is the distinct
public-key-mismatch error. -/
def VerifyPrivateKey (c : certificateV1) (curve : Nat) (key : List Nat) :
    Except CertError Unit :=
  if curve ≠ c.details.curve then .error .curveMismatchKey
  else if c.details.isCA then
    if curve = Curve_CURVE25519 then
      if key.length ≠ 64 then .error .ed25519KeyNot64Bytes
      else if c.details.publicKey = ed25519PublicOf key then .ok ()
      else .error .pubKeyMismatch
    else if curve = Curve_P256 then
      match p256NewPrivateKey key with
      | .error _ => .error .badP256PrivateKey
      | .ok pub => if pub = c.details.publicKey then .ok () else .error .pubKeyMismatch
    else .error (.invalidCurve curve)
  else
    match (if curve = Curve_CURVE25519 then x25519Base key
           else if curve = Curve_P256 then p256NewPrivateKey key
           else .error (.invalidCurve curve)) with
    | .error e => .error e
    | .ok pub => if pub = c.details.publicKey then .ok () else .error .pubKeyMismatch

/-- The public key `VerifyPrivateKey` derives from the supplied private key,
as a function of curve and CA-ness (the claim's "k corresponds to c's stored
public key"). -/
def derivePub (curve : Nat) (isCA : Bool) (key : List Nat) :
    Except CertError (List Nat) :=
  if isCA then
    if curve = Curve_CURVE25519 then
      if key.length = 64 then .ok (ed25519PublicOf key) else .error .ed25519KeyNot64Bytes
    else if curve = Curve_P256 then p256NewPrivateKey key
    else .error (.invalidCurve curve)
  else
    if curve = Curve_CURVE25519 then x25519Base key
    else if curve = Curve_P256 then p256NewPrivateKey key
    else .error (.invalidCurve curve)

/-!
Reference embedding for the aliasing/frame claim.  Go slices are headers
pointing into a shared backing store; to express "sorted in place" and "the
sealed certificate aliases the builder's slices" the store is made explicit: a
heap maps slice identities to contents, and the structures below are the same
`TBSCertificate`/`certificateV1` with each slice field replaced by its
identity.  `slices.SortFunc` becomes a heap update at the unchanged identity,
and `fromTBSCertificate`'s field copies transfer identities, exactly as Go
copies slice headers.
-/

/-- Backing store for slice contents, by slice identity. -/
structure HeapC9 where
  pfxSlices : Nat → List NetPfx
  strSlices : Nat → List String
  byteSlices : Nat → List Nat

/-- `TBSCertificate` with slice fields as heap identities. -/
structure TBSRef where
  Version : Nat
  Name : String
  NetworksRef : Nat
  SubnetsRef : Nat
  GroupsRef : Nat
  IsCA : Bool
  NotBefore : Int
  NotAfter : Int
  PublicKeyRef : Nat
  Curve : Nat
  issuer : String

/-- `certificateV1` with slice fields as heap identities. -/
structure certificateV1Ref where
  name : String
  networksRef : Nat
  subnetsRef : Nat
  groupsRef : Nat
  notBefore : Int
  notAfter : Int
  publicKeyRef : Nat
  isCA : Bool
  issuer : String
  curve : Nat
  signature : List Nat

/-- Overwrite the contents of one network-list slice. -/
def writePfx (h : HeapC9) (i : Nat) (v : List NetPfx) : HeapC9 :=
  { h with pfxSlices := fun j => if j = i then v else h.pfxSlices j }

/-- `fromTBSCertificate` in the reference embedding: every slice header (here:
identity) is copied verbatim, no contents are duplicated. -/
def fromTBSCertificateRef (t : TBSRef) : certificateV1Ref :=
  { name := t.Name, networksRef := t.NetworksRef, subnetsRef := t.SubnetsRef,
    groupsRef := t.GroupsRef, notBefore := t.NotBefore, notAfter := t.NotAfter,
    publicKeyRef := t.PublicKeyRef, isCA := t.IsCA, issuer := t.issuer,
    curve := t.Curve, signature := [] }

/-- Dereference a reference certificate to its value-level details. -/
def detailsAt (h : HeapC9) (c : certificateV1Ref) : detailsV1 :=
  { name := c.name, networks := h.pfxSlices c.networksRef,
    subnets := h.pfxSlices c.subnetsRef, groups := h.strSlices c.groupsRef,
    notBefore := c.notBefore, notAfter := c.notAfter,
    publicKey := h.byteSlices c.publicKeyRef, isCA := c.isCA,
    issuer := c.issuer, curve := c.curve }

/-- `issuerStep` in the reference embedding (the constraint checker receives
the slice contents, read from the heap before any sorting). -/
def issuerStepRef (t : TBSRef) (signer : Option SignedCert)
    (chk : ConstraintChecker) (h : HeapC9) : Except CertError String :=
  match signer with
  | some s =>
    if t.IsCA then .error .caSignedByAnother
    else
      match chk s t.NotBefore t.NotAfter (h.strSlices t.GroupsRef)
          (h.pfxSlices t.NetworksRef) (h.pfxSlices t.SubnetsRef) with
      | some e => .error e
      | none =>
        match fingerprintSC s with
        | none => .error .issuerComputeFailed
        | some fp => .ok fp
  | none => if t.IsCA then .ok t.issuer else .error .selfSignedNotCA

/-- `slices.SortFunc(heap[i], comparePrefix)`: sort one slice's contents in
place, through its unchanged identity. -/
def sortHeapAt (h : HeapC9) (i : Nat) : HeapC9 :=
  writePfx h i (sortPfxs (h.pfxSlices i))

/-- `SignWithPredicate` in the reference embedding, covering the `Version1`
branch (the claim it settles concerns `certificateV1`; other versions fall to
the error arm).  The result carries the sealed certificate, the caller's `t`
after the call, and the heap after the two in-place sorts. -/
def signWithPredicateRef (t : TBSRef) (signer : Option SignedCert)
    (curve : Nat) (chk : ConstraintChecker) (sp : SignerPred) (h : HeapC9) :
    Except CertError (certificateV1Ref × TBSRef × HeapC9) :=
  if curve ≠ t.Curve then .error .curveMismatchKey
  else
    match issuerStepRef t signer chk h with
    | .error e => .error e
    | .ok iss =>
      match t.Version with
      | 1 =>
        match marshalForSigningV1
            { details := detailsAt (sortHeapAt (sortHeapAt h t.NetworksRef) t.SubnetsRef)
                (fromTBSCertificateRef { t with issuer := iss }),
              signature := [] } with
        | none => .error .marshalPanicked
        | some input =>
          match sp input with
          | .error e => .error e
          | .ok sig =>
            .ok ({ fromTBSCertificateRef { t with issuer := iss } with
                     signature := sig },
                 { t with issuer := iss },
                 sortHeapAt (sortHeapAt h t.NetworksRef) t.SubnetsRef)
      | v => .error (.unknownVersion v)

/-- Postcondition of a successful reference signing run: the caller's slice
identities are unchanged (the sorts happened in place, through them), the
issuer field was set from the signer's fingerprint when one was supplied, the
sealed certificate aliases the caller's four slices, and a later write through
the certificate's network identity is visible at the caller's (and vice
versa). -/
def C9Post (t : TBSRef) (signer : Option SignedCert) (h : HeapC9)
    (c : certificateV1Ref) (t' : TBSRef) (h' : HeapC9) : Prop :=
  (t'.NetworksRef = t.NetworksRef ∧ t'.SubnetsRef = t.SubnetsRef ∧
    t'.GroupsRef = t.GroupsRef ∧ t'.PublicKeyRef = t.PublicKeyRef) ∧
  (h'.pfxSlices t.NetworksRef = sortPfxs (h.pfxSlices t.NetworksRef) ∧
    h'.pfxSlices t.SubnetsRef = sortPfxs (h.pfxSlices t.SubnetsRef)) ∧
  (∀ s, signer = some s → fingerprintSC s = some t'.issuer) ∧
  (signer = none → t'.issuer = t.issuer) ∧
  (c.networksRef = t.NetworksRef ∧ c.subnetsRef = t.SubnetsRef ∧
    c.groupsRef = t.GroupsRef ∧ c.publicKeyRef = t.PublicKeyRef) ∧
  (∀ v, (writePfx h' c.networksRef v).pfxSlices t'.NetworksRef = v)

/-- A genuine (non-IPv4-mapped) 16-byte address: the one case in which `As4`
(and hence `addr2int`) panics. -/
def genuineV6B (a : NetipAddr) : Bool :=
  match a with
  | .v6 n => decide (¬ n / 2 ^ 32 = 0xffff)
  | _ => false

/-- `Networks()` of a sealed certificate (either version). -/
def SignedCert.networksOf : SignedCert → List NetPfx
  | .v1 c => c.details.networks
  | .v2 c => c.details.networks

/-- `UnsafeNetworks()` of a sealed certificate (either version). -/
def SignedCert.subnetsOf : SignedCert → List NetPfx
  | .v1 c => c.details.subnets
  | .v2 c => c.details.subnets

/-- `marshalForSigning` dispatched over the certificate version. -/
def marshalForSigningSC : SignedCert → Option SigningInput
  | .v1 c => marshalForSigningV1 c
  | .v2 c => some (.v2 c.details)

/-- Two builders that differ only by a permutation of their networks and
unsafe-networks lists. -/
def PermEquiv (t1 t2 : TBSCertificate) : Prop :=
  t1.Networks.Perm t2.Networks ∧ t1.Subnets.Perm t2.Subnets ∧
  ({ t1 with Networks := [], Subnets := [] } : TBSCertificate) =
    { t2 with Networks := [], Subnets := [] }

/-- Invariance of a constraint checker under permutation of the two network
lists.  The spec's external-collaborator contract (§4.2) states only set-based
conditions (window containment, group membership, network containment,
duplicates), all invariant under reordering, so a conforming checker satisfies
this. -/
def ChkPermInv (chk : ConstraintChecker) : Prop :=
  ∀ s nb na g l1 l2 l1' l2', l1.Perm l1' → l2.Perm l2' →
    chk s nb na g l1 l2 = chk s nb na g l1' l2'

/-- A prefix in the canonical form the V1 wire can represent exactly: a pure
4-byte address with an in-range prefix length. -/
def PfxCanonical (p : NetPfx) : Prop :=
  ∃ n, p.addr = NetipAddr.v4 n ∧ n < 2 ^ 32 ∧ 0 ≤ p.bits ∧ p.bits ≤ 32

/-- An issuer string in the canonical form the V1 wire can represent exactly:
the lowercase hex encoding of some byte string (the empty string included). -/
def IssuerCanonical (s : String) : Prop :=
  ∃ bs, (∀ b ∈ bs, b < 256) ∧ s = hexEncode bs

/-- A `certificateV1` whose networks, unsafe-networks and issuer are exactly
representable on the V1 wire. -/
def CertCanonical (c : certificateV1) : Prop :=
  (∀ p ∈ c.details.networks, PfxCanonical p) ∧
  (∀ p ∈ c.details.subnets, PfxCanonical p) ∧
  IssuerCanonical c.details.issuer

/-- Well-formedness of a decoded wire envelope: issuer bytes are bytes.  (On
the real wire `Issuer` is a protobuf `bytes` field, so this always holds.) -/
def WfWire (b : RawNebulaCertificate) : Prop :=
  match b.Details with
  | none => True
  | some rd => ∀ x ∈ rd.Issuer, x < 256

instance (b : RawNebulaCertificate) : Decidable (WfWire b) :=
  match hb : b.Details with
  | none => .isTrue (by simp [WfWire, hb])
  | some rd =>
    decidable_of_iff (∀ x ∈ rd.Issuer, x < 256) (by simp [WfWire, hb])

/-!
Concrete inputs used by witnesses and counterexamples.
-/

/-- A minimal self-signable CA builder (curve 0, version 1, empty lists). -/
def tW : TBSCertificate :=
  { Version := 1, Name := "w", Networks := [], Subnets := [], Groups := [],
    IsCA := true, NotBefore := 0, NotAfter := 1, PublicKey := [1],
    Curve := 0, issuer := "" }

/-- The same builder with `IsCA` cleared. -/
def tWnoCA : TBSCertificate := { tW with IsCA := false }

/-- A constraint checker that accepts everything. -/
def chkW : ConstraintChecker := fun _ _ _ _ _ _ => none

/-- A signer predicate returning a fixed signature. -/
def spW : SignerPred := fun _ => .ok [7]

/-- A certificate with a plain validity window, for the expiry witness. -/
def cW4 : certificateV1 :=
  { details := { name := "", networks := [], subnets := [], groups := [],
                 notBefore := 10, notAfter := 20, publicKey := [], isCA := false,
                 issuer := "", curve := 0 }, signature := [] }

/-- A CA certificate on curve 0 whose public key matches `keyW8`. -/
def cW8 : certificateV1 :=
  { details := { name := "", networks := [], subnets := [], groups := [],
                 notBefore := 0, notAfter := 0,
                 publicKey := List.replicate 32 0, isCA := true,
                 issuer := "", curve := 0 }, signature := [] }

/-- A 64-byte Ed25519 private key (seed ‖ public). -/
def keyW8 : List Nat := List.replicate 64 0

/-- Wire details carrying a non-empty encoded public key. -/
def rdCX5 : RawNebulaCertificateDetails :=
  { Name := "", Ips := [], Subnets := [], Groups := [], NotBefore := 0,
    NotAfter := 0, PublicKey := [1, 2], IsCA := false, Issuer := [], Curve := 0 }

/-- Wire envelope around `rdCX5`. -/
def bCX5 : RawNebulaCertificate := { Details := some rdCX5, Signature := [] }

/-- What `unmarshalCertificateV1 bCX5 [9, 9]` actually returns: the decoded
key bytes have overwritten the supplied ones. -/
def cCX5 : certificateV1 :=
  { details := { name := "", networks := [], subnets := [], groups := [],
                 notBefore := 0, notAfter := 0, publicKey := [1, 2],
                 isCA := false, issuer := "", curve := 0 }, signature := [] }

/-- Two canonical IPv4 prefixes, in descending order. -/
def pfxA : NetPfx := ⟨.v4 1, 32⟩

/-- See `pfxA`. -/
def pfxB : NetPfx := ⟨.v4 2, 32⟩

/-- A CA builder whose networks arrive unsorted. -/
def tW2 : TBSCertificate := { tW with Networks := [pfxB, pfxA] }

/-- The same builder with its lists permuted. -/
def tW2p : TBSCertificate := { tW with Networks := [pfxA, pfxB] }

/-- An IPv4-mapped IPv6 address (::ffff:0.0.0.1). -/
def addr4in6 : NetipAddr := .v6 (0xffff * 2 ^ 32 + 1)

/-- A builder carrying an IPv4-mapped IPv6 network: signing succeeds but the
marshalled form decodes to the pure 4-byte prefix instead. -/
def tCX1 : TBSCertificate :=
  { Version := 1, Name := "a", Networks := [⟨addr4in6, 128⟩], Subnets := [],
    Groups := [], IsCA := true, NotBefore := 0, NotAfter := 1,
    PublicKey := [1], Curve := 0, issuer := "" }

/-- The certificate `signWithPredicate` seals from `tCX1`. -/
def cCX1 : certificateV1 :=
  { details := { name := "a", networks := [⟨addr4in6, 128⟩], subnets := [],
                 groups := [], notBefore := 0, notAfter := 1, publicKey := [1],
                 isCA := true, issuer := "", curve := 0 }, signature := [7] }

/-- The envelope `Marshal cCX1` produces. -/
def rcCX1 : RawNebulaCertificate :=
  { Details := some { Name := "a", Ips := [1, 4294967295], Subnets := [],
                      Groups := [], NotBefore := 0, NotAfter := 1,
                      PublicKey := [1], IsCA := true, Issuer := [], Curve := 0 },
    Signature := [7] }

/-- What decoding `rcCX1` yields: the pure IPv4 form of the network. -/
def cCX1d : certificateV1 :=
  { details := { name := "a", networks := [⟨.v4 1, 32⟩], subnets := [],
                 groups := [], notBefore := 0, notAfter := 1, publicKey := [1],
                 isCA := true, issuer := "", curve := 0 }, signature := [7] }

/-- A certificate whose issuer field is uppercase hex: `MarshalForHandshakes`
succeeds on it, but decoding re-encodes the issuer in lowercase. -/
def cCX6 : certificateV1 :=
  { details := { name := "", networks := [], subnets := [], groups := [],
                 notBefore := 0, notAfter := 0, publicKey := [],
                 isCA := false, issuer := "AB", curve := 0 }, signature := [] }

/-- The envelope `MarshalForHandshakes cCX6` produces. -/
def rcCX6 : RawNebulaCertificate :=
  { Details := some { Name := "", Ips := [], Subnets := [], Groups := [],
                      NotBefore := 0, NotAfter := 0, PublicKey := [],
                      IsCA := false, Issuer := [171], Curve := 0 },
    Signature := [] }

/-- A certificate carrying a genuine IPv6 network address, outside the V1
codec's domain. -/
def cW10 : certificateV1 :=
  { details := { name := "", networks := [⟨.v6 1, 128⟩], subnets := [],
                 groups := [], notBefore := 0, notAfter := 0, publicKey := [],
                 isCA := false, issuer := "", curve := 0 }, signature := [] }

/-- A canonical wire envelope for the C1 witness. -/
def bW1 : RawNebulaCertificate :=
  { Details := some { Name := "n", Ips := [1, 4294967295], Subnets := [],
                      Groups := ["g"], NotBefore := 3, NotAfter := 9,
                      PublicKey := [5], IsCA := true, Issuer := [171],
                      Curve := 0 },
    Signature := [9] }

/-- The certificate `unmarshalCertificateV1 bW1 []` returns. -/
def cW1 : certificateV1 :=
  { details := { name := "n", networks := [⟨.v4 1, 32⟩], subnets := [],
                 groups := ["g"], notBefore := 3, notAfter := 9,
                 publicKey := [5], isCA := true, issuer := "ab", curve := 0 },
    signature := [9] }

/-- What signing `tW2` seals: the networks arrive sorted. -/
def scW2 : SignedCert :=
  .v1 { details := { name := "w", networks := [pfxA, pfxB], subnets := [],
                     groups := [], notBefore := 0, notAfter := 1,
                     publicKey := [1], isCA := true, issuer := "", curve := 0 },
        signature := [7] }

/-- Heap for the aliasing witness: slice 0 holds the unsorted networks. -/
def h0W : HeapC9 :=
  { pfxSlices := fun i => if i = 0 then [pfxB, pfxA] else [],
    strSlices := fun _ => [], byteSlices := fun _ => [] }

/-- Builder-by-reference for the aliasing witness. -/
def tR0 : TBSRef :=
  { Version := 1, Name := "w", NetworksRef := 0, SubnetsRef := 1, GroupsRef := 2,
    IsCA := true, NotBefore := 0, NotAfter := 1, PublicKeyRef := 3, Curve := 0,
    issuer := "" }

/-- `tR0` after the call (the issuer field was rewritten with its own value). -/
def tR0p : TBSRef := { tR0 with issuer := "" }

/-- The sealed reference certificate of the aliasing witness. -/
def cR0 : certificateV1Ref :=
  { fromTBSCertificateRef tR0p with signature := [7] }

/-- The heap after the two in-place sorts of the aliasing witness. -/
def h2W : HeapC9 := sortHeapAt (sortHeapAt h0W 0) 1

/-!
Theorems.  Each claim of the specification is settled by exactly one theorem
below (plus, where needed, a closed witness or counterexample).
-/

theorem sortPfxs_sorted (l : List NetPfx) : (sortPfxs l).Pairwise pfxLe :=
  List.sorted_insertionSort pfxLe l

theorem sortPfxs_perm (l : List NetPfx) : (sortPfxs l).Perm l :=
  List.perm_insertionSort pfxLe l

theorem sortPfxs_eq_of_perm {l₁ l₂ : List NetPfx} (h : l₁.Perm l₂) :
    sortPfxs l₁ = sortPfxs l₂ :=
  List.eq_of_perm_of_sorted
    (((sortPfxs_perm l₁).trans h).trans (sortPfxs_perm l₂).symm)
    (sortPfxs_sorted l₁) (sortPfxs_sorted l₂)

/-- C4: for a `certificateV1` with `notBefore = T0 ≤ T1 = notAfter`,
`Expired t` is true exactly when `t` is strictly before `T0` or strictly after
`T1`; in particular the boundary instants are non-expired and the instants one
step outside are expired. -/
theorem c4_expired_boundaries (c : certificateV1) (t : Int)
    (h : c.details.notBefore ≤ c.details.notAfter) :
    (Expired c t = true ↔
      (t < c.details.notBefore ∨ c.details.notAfter < t)) ∧
    Expired c c.details.notBefore = false ∧
    Expired c c.details.notAfter = false ∧
    Expired c (c.details.notBefore - 1) = true ∧
    Expired c (c.details.notAfter + 1) = true := by
  unfold Expired
  refine ⟨by simp, ?_, ?_, ?_, ?_⟩ <;> simp <;> omega

/-- Witness for C4 at a concrete certificate and instant. -/
theorem c4_witness :
    (Expired cW4 15 = true ↔
      (15 < cW4.details.notBefore ∨ cW4.details.notAfter < 15)) ∧
    Expired cW4 cW4.details.notBefore = false ∧
    Expired cW4 cW4.details.notAfter = false ∧
    Expired cW4 (cW4.details.notBefore - 1) = true ∧
    Expired cW4 (cW4.details.notAfter + 1) = true :=
  c4_expired_boundaries cW4 15 (by decide)

/-- C3: with a matching curve argument, `SignWithPredicate` with no signer
rejects a non-CA builder, and with a signer rejects a CA builder; in both
cases the result is the bare error (no certificate). -/
theorem c3_ca_issuance_rules (t : TBSCertificate) (curve : Nat)
    (chk : ConstraintChecker) (sp : SignerPred) (hc : curve = t.Curve) :
    (t.IsCA = false →
      signWithPredicate t none curve chk sp = .error .selfSignedNotCA) ∧
    (∀ s, t.IsCA = true →
      signWithPredicate t (some s) curve chk sp = .error .caSignedByAnother) := by
  subst hc
  unfold signWithPredicate issuerStep
  constructor
  · intro h; simp [h]
  · intro s h; simp [h]

/-- Witness for C3 at concrete builders. -/
theorem c3_witness :
    signWithPredicate tWnoCA none 0 chkW spW = .error .selfSignedNotCA ∧
    signWithPredicate tW (some (.v1 cW4)) 0 chkW spW = .error .caSignedByAnother :=
  ⟨(c3_ca_issuance_rules tWnoCA 0 chkW spW rfl).1 rfl,
   (c3_ca_issuance_rules tW 0 chkW spW rfl).2 (.v1 cW4) rfl⟩

/-- C7: `SignPkcs11` fails on a nil client; with a client but the
`Curve_CURVE25519` builder curve it fails with the PKCS#11 restriction error;
and whenever the builder curve is not `Curve_P256` the result does not depend
on the client's signing operation (it is never invoked). -/
theorem c7_pkcs11_guards (t : TBSCertificate) (signer : Option SignedCert)
    (curve : Nat) (chk : ConstraintChecker) :
    SignPkcs11 t signer curve chk none = .error .pkclientNil ∧
    (∀ cl, t.Curve = Curve_CURVE25519 →
      SignPkcs11 t signer curve chk (some cl) = .error .onlyP256Pkcs11) ∧
    (∀ cl cl', t.Curve ≠ Curve_P256 →
      SignPkcs11 t signer curve chk (some cl) =
        SignPkcs11 t signer curve chk (some cl')) := by
  refine ⟨rfl, ?_, ?_⟩
  · intro cl h
    simp [SignPkcs11, h, Curve_CURVE25519]
  · intro cl cl' h
    by_cases h0 : t.Curve = Curve_CURVE25519 <;> simp [SignPkcs11, h, h0]

/-- Witness for C7 at a concrete builder and client. -/
theorem c7_witness :
    SignPkcs11 tW none 0 chkW none = .error .pkclientNil ∧
    SignPkcs11 tW none 0 chkW (some spW) = .error .onlyP256Pkcs11 :=
  ⟨(c7_pkcs11_guards tW none 0 chkW).1,
   (c7_pkcs11_guards tW none 0 chkW).2.1 spW (by decide)⟩

/-- Under a matching curve, `VerifyPrivateKey` is: derive the public key from
the private key (per curve and CA-ness), propagate the derivation's error, and
otherwise compare against the stored key. -/
theorem verifyPrivateKey_eq_derivePub (c : certificateV1) (key : List Nat) :
    VerifyPrivateKey c c.details.curve key =
      match derivePub c.details.curve c.details.isCA key with
      | .error e => .error e
      | .ok pub =>
        if pub = c.details.publicKey then .ok () else .error .pubKeyMismatch := by
  unfold VerifyPrivateKey derivePub
  rw [if_neg (by simp : ¬ c.details.curve ≠ c.details.curve)]
  by_cases hca : c.details.isCA <;>
    simp only [hca, if_true, if_false, ite_true, ite_false] <;>
    by_cases h0 : c.details.curve = Curve_CURVE25519 <;>
    simp only [h0, if_true, ite_true, if_false, ite_false]
  · by_cases hl : key.length = 64
    · simp only [hl, ne_eq, not_true_eq_false, if_false, ite_false, ite_true, if_true]
      by_cases he : c.details.publicKey = ed25519PublicOf key
      · rw [if_pos he, if_pos he.symm]
      · rw [if_neg he, if_neg (fun h => he h.symm)]
    · simp [hl]
  · by_cases h1 : c.details.curve = Curve_P256
    · simp only [h1, ite_true, if_true]
      rcases hp : p256NewPrivateKey key with e | pub <;> simp only [hp]
      have he : e = .badP256PrivateKey := by
        unfold p256NewPrivateKey at hp
        split at hp <;> simp_all
      rw [he]
    · simp [h1]
  · rfl
  · rfl

/-- C8: `VerifyPrivateKey` checks the curve first (a mismatch is its own error
regardless of the key); under a matching curve it succeeds exactly when the
public key derived from the supplied private key (per curve and CA-ness, see
`derivePub`) equals the stored one; a malformed key surfaces the distinct
malformed-key error of its branch (Ed25519 length, X25519 scalar length, P-256
scalar range), and a well-formed key from a different pair surfaces the
distinct public-key-mismatch error. -/
theorem c8_verify_private_key (c : certificateV1) (curve : Nat) (key : List Nat) :
    (curve ≠ c.details.curve →
      VerifyPrivateKey c curve key = .error .curveMismatchKey) ∧
    (curve = c.details.curve →
      (VerifyPrivateKey c curve key = .ok () ↔
        derivePub curve c.details.isCA key = .ok c.details.publicKey)) ∧
    (curve = c.details.curve → c.details.isCA = true → curve = Curve_CURVE25519 →
      key.length ≠ 64 →
      VerifyPrivateKey c curve key = .error .ed25519KeyNot64Bytes) ∧
    (curve = c.details.curve → c.details.isCA = false → curve = Curve_CURVE25519 →
      key.length ≠ 32 →
      VerifyPrivateKey c curve key = .error .x25519Failed) ∧
    (curve = c.details.curve → curve = Curve_P256 →
      ¬(key.length = 32 ∧ 0 < beNat key ∧ beNat key < p256Order) →
      VerifyPrivateKey c curve key = .error .badP256PrivateKey) ∧
    (curve = c.details.curve → ∀ pub,
      derivePub curve c.details.isCA key = .ok pub → pub ≠ c.details.publicKey →
      VerifyPrivateKey c curve key = .error .pubKeyMismatch) := by
  refine ⟨fun h => by simp [VerifyPrivateKey, h], ?_, ?_, ?_, ?_, ?_⟩
  all_goals intro hc
  all_goals subst hc
  · rw [verifyPrivateKey_eq_derivePub]
    rcases hp : derivePub c.details.curve c.details.isCA key with e | pub <;> simp [hp]
  · intro hca h0 hl
    rw [verifyPrivateKey_eq_derivePub]
    simp [derivePub, hca, h0, hl]
  · intro hca h0 hl
    rw [verifyPrivateKey_eq_derivePub]
    simp [derivePub, hca, h0, x25519Base, hl,
      (by simp [Curve_CURVE25519, Curve_P256] : Curve_CURVE25519 ≠ Curve_P256)]
  · intro h1 hbad
    have h0 : c.details.curve ≠ Curve_CURVE25519 := by
      simp [h1, Curve_P256, Curve_CURVE25519]
    rw [verifyPrivateKey_eq_derivePub]
    by_cases hca : c.details.isCA <;>
      simp [derivePub, hca, h0, h1, p256NewPrivateKey, hbad,
        Curve_P256, Curve_CURVE25519]
  · intro pub hok hne
    rw [verifyPrivateKey_eq_derivePub, hok]
    simp [hne]

/-- Witness for C8: a wrong-curve key is a curve-mismatch error, and for the
matching curve success is equivalent to the derived-key comparison, at a
concrete CA certificate and Ed25519 key. -/
theorem c8_witness :
    VerifyPrivateKey cW8 1 [] = .error .curveMismatchKey ∧
    (VerifyPrivateKey cW8 0 keyW8 = .ok () ↔
      derivePub 0 cW8.details.isCA keyW8 = .ok cW8.details.publicKey) :=
  ⟨(c8_verify_private_key cW8 1 []).1 (by decide),
   (c8_verify_private_key cW8 0 keyW8).2.1 (by decide)⟩

/-- C5 (amended): when the caller supplies a non-empty out-of-band public key,
the decoded certificate's public key is the decoded key bytes copied over the
supplied ones — so the supplied key becomes the certificate's key exactly when
the encoded public key in `b` is empty; a non-empty encoded key takes
precedence on the overlap rather than being overridden. -/
theorem c5_public_key_fill_amended (b : RawNebulaCertificate)
    (rd : RawNebulaCertificateDetails) (pk : List Nat) (c : certificateV1)
    (hd : b.Details = some rd) (hpk : pk ≠ [])
    (hu : unmarshalCertificateV1 b pk = .ok c) :
    c.details.publicKey = goCopy pk rd.PublicKey ∧
    (rd.PublicKey = [] → c.details.publicKey = pk) := by
  unfold unmarshalCertificateV1 at hu
  split at hu
  · exact absurd hu (by simp)
  · rw [hd] at hu
    simp only at hu
    split at hu
    · exact absurd hu (by simp)
    · split at hu
      · exact absurd hu (by simp)
      · have hlen : 0 < pk.length := List.length_pos.mpr hpk
        simp only [Except.ok.injEq] at hu
        subst hu
        rw [if_pos hlen]
        refine ⟨rfl, fun hempty => ?_⟩
        simp [goCopy, hempty]

/-- Counterexample to C5 as stated: `bCX5` encodes public key `[1, 2]`; decoding
it with the non-empty out-of-band key `[9, 9]` succeeds but returns a
certificate whose public key is the decoded `[1, 2]`, not the supplied
`[9, 9]`. -/
theorem c5_counterexample :
    unmarshalCertificateV1 bCX5 [9, 9] = .ok cCX5 ∧
    cCX5.details.publicKey ≠ [9, 9] :=
  ⟨rfl, by decide⟩

/-- A genuine IPv6 address makes `addr2int` panic (`none`). -/
theorem addr2int_genuineV6 {a : NetipAddr} (h : genuineV6B a = true) :
    addr2int a = none := by
  unfold genuineV6B at h
  split at h
  · rename_i n
    simp only [decide_eq_true_eq] at h
    have h' : ¬ n / 4294967296 = 65535 := by simpa using h
    simp [addr2int, NetipAddr.unmap, NetipAddr.as4, h']
  · simp at h

/-- A list with an address outside `addr2int`'s domain cannot be flattened. -/
theorem encodePairs_eq_none {ps : List NetPfx}
    (h : ∃ p ∈ ps, addr2int p.addr = none) : encodePairs ps = none := by
  induction ps with
  | nil => simp at h
  | cons p rest ih =>
    rcases h with ⟨q, hq, hnone⟩
    rcases List.mem_cons.mp hq with rfl | hq
    · simp [encodePairs, rawPairOf, hnone]
    · rcases hr : rawPairOf p with _ | pair
      · simp [encodePairs, hr]
      · simp [encodePairs, hr, ih ⟨q, hq, hnone⟩]

/-- C10: the V1 marshalling operations are undefined (they panic rather than
encode) on any certificate whose networks or unsafe-networks contain a genuine
IPv6 address, and on 4-byte addresses the integer conversion round-trips. -/
theorem c10_v1_codec_ipv4_domain :
    (∀ c : certificateV1,
      (∃ p ∈ c.details.networks ++ c.details.subnets, genuineV6B p.addr = true) →
      Marshal c = none ∧ marshalForSigningV1 c = none ∧ Fingerprint c = none) ∧
    (∀ n : Nat, n < 2 ^ 32 →
      addr2int (.v4 n) = some n ∧ int2addr n = .v4 n) := by
  constructor
  · intro c h
    rcases h with ⟨p, hp, hgen⟩
    have hnone := addr2int_genuineV6 hgen
    have hraw : getRawDetails c.details = none := by
      rcases List.mem_append.mp hp with hmem | hmem
      · simp [getRawDetails, encodePairs_eq_none ⟨p, hmem, hnone⟩]
      · rcases he : encodePairs c.details.networks with _ | l1
        · simp [getRawDetails, he]
        · simp [getRawDetails, he, encodePairs_eq_none ⟨p, hmem, hnone⟩]
    exact ⟨by simp [Marshal, hraw], by simp [marshalForSigningV1, hraw],
      by simp [Fingerprint, Marshal, hraw]⟩
  · intro n hn
    have hn' : n < 4294967296 := by simpa using hn
    constructor
    · simp [addr2int, NetipAddr.unmap, NetipAddr.as4, Nat.mod_eq_of_lt hn']
    · simp [int2addr, NetipAddr.unmap, Nat.mod_eq_of_lt hn']

/-- Witness for C10 at a concrete IPv6-bearing certificate and a concrete
4-byte address. -/
theorem c10_witness :
    (Marshal cW10 = none ∧ marshalForSigningV1 cW10 = none ∧
      Fingerprint cW10 = none) ∧
    (addr2int (.v4 5) = some 5 ∧ int2addr 5 = .v4 5) :=
  ⟨c10_v1_codec_ipv4_domain.1 cW10 ⟨⟨.v6 1, 128⟩, by decide, by decide⟩,
   c10_v1_codec_ipv4_domain.2 5 (by decide)⟩

/-- A successful `SignWithPredicate` run decomposes into a successful issuer
step followed by `buildAndSign` on the sorted, issuer-populated builder. -/
theorem signWithPredicate_ok_destruct {t : TBSCertificate} {signer : Option SignedCert}
    {curve : Nat} {chk : ConstraintChecker} {sp : SignerPred} {sc : SignedCert}
    (h : signWithPredicate t signer curve chk sp = .ok sc) :
    ∃ iss, issuerStep t signer chk = .ok iss ∧
      buildAndSign
        { t with issuer := iss,
                 Networks := sortPfxs t.Networks,
                 Subnets := sortPfxs t.Subnets } sp = .ok sc := by
  unfold signWithPredicate at h
  split at h
  · exact absurd h (by simp)
  · split at h
    · exact absurd h (by simp)
    · rename_i iss heq
      exact ⟨iss, heq, h⟩

/-- The networks of a sealed certificate are the builder's (sorted) lists. -/
theorem buildAndSign_fields {t1 : TBSCertificate} {sp : SignerPred} {sc : SignedCert}
    (h : buildAndSign t1 sp = .ok sc) :
    SignedCert.networksOf sc = t1.Networks ∧
    SignedCert.subnetsOf sc = t1.Subnets := by
  unfold buildAndSign at h
  split at h
  · split at h
    · exact absurd h (by simp)
    · split at h
      · exact absurd h (by simp)
      · simp only [Except.ok.injEq] at h
        subst h
        exact ⟨rfl, rfl⟩
  · split at h
    · exact absurd h (by simp)
    · simp only [Except.ok.injEq] at h
      subst h
      exact ⟨rfl, rfl⟩
  · exact absurd h (by simp)

/-- Non-list fields of permutation-equivalent builders agree. -/
theorem permEquiv_fields {t1 t2 : TBSCertificate} (h : PermEquiv t1 t2) :
    t1.Version = t2.Version ∧ t1.Name = t2.Name ∧ t1.Groups = t2.Groups ∧
    t1.IsCA = t2.IsCA ∧ t1.NotBefore = t2.NotBefore ∧
    t1.NotAfter = t2.NotAfter ∧ t1.PublicKey = t2.PublicKey ∧
    t1.Curve = t2.Curve ∧ t1.issuer = t2.issuer := by
  obtain ⟨-, -, h3⟩ := h
  cases t1; cases t2
  simp_all

/-- Permutation-equivalent builders sign identically (same error, or the same
sealed certificate), for any constraint checker conforming to the spec's
permutation-invariant contract. -/
theorem signWithPredicate_permEquiv {t1 t2 : TBSCertificate}
    (signer : Option SignedCert) (curve : Nat) {chk : ConstraintChecker}
    (sp : SignerPred) (hperm : PermEquiv t1 t2) (hchk : ChkPermInv chk) :
    signWithPredicate t1 signer curve chk sp =
      signWithPredicate t2 signer curve chk sp := by
  obtain ⟨hnet, hsub, hmask⟩ := hperm
  obtain ⟨hV, hN, hG, hCA, hNB, hNA, hPK, hCu, hIs⟩ :=
    permEquiv_fields ⟨hnet, hsub, hmask⟩
  have hIss : issuerStep t1 signer chk = issuerStep t2 signer chk := by
    cases signer with
    | none => simp only [issuerStep, hCA, hIs]
    | some s =>
      simp only [issuerStep, hCA, hNB, hNA, hG,
        hchk s t2.NotBefore t2.NotAfter t2.Groups t1.Networks t1.Subnets
          t2.Networks t2.Subnets hnet hsub]
  unfold signWithPredicate
  rw [hCu, hIss]
  cases h : issuerStep t2 signer chk with
  | error e => rfl
  | ok iss =>
    congr 1
    simp_all [TBSCertificate.mk.injEq, sortPfxs_eq_of_perm hnet,
      sortPfxs_eq_of_perm hsub]

/-- C2: the networks and unsafe-networks of any successfully signed certificate
are sorted by the `comparePrefix` order (address ascending, then prefix length
ascending); and builders differing only by a permutation of those lists produce
the very same signing outcome — in particular identical `marshalForSigning`
signature-input bytes — for any constraint checker conforming to the spec's
permutation-invariant contract. -/
theorem c2_canonical_order :
    (∀ (t : TBSCertificate) (signer : Option SignedCert) (curve : Nat)
      (chk : ConstraintChecker) (sp : SignerPred) (sc : SignedCert),
      signWithPredicate t signer curve chk sp = .ok sc →
      (SignedCert.networksOf sc).Pairwise pfxLe ∧
      (SignedCert.subnetsOf sc).Pairwise pfxLe) ∧
    (∀ (t1 t2 : TBSCertificate) (signer : Option SignedCert) (curve : Nat)
      (chk : ConstraintChecker) (sp : SignerPred),
      PermEquiv t1 t2 → ChkPermInv chk →
      signWithPredicate t1 signer curve chk sp =
        signWithPredicate t2 signer curve chk sp ∧
      ∀ sc1 sc2, signWithPredicate t1 signer curve chk sp = .ok sc1 →
        signWithPredicate t2 signer curve chk sp = .ok sc2 →
        marshalForSigningSC sc1 = marshalForSigningSC sc2) := by
  constructor
  · intro t signer curve chk sp sc h
    obtain ⟨iss, hiss, hb⟩ := signWithPredicate_ok_destruct h
    obtain ⟨hn, hs⟩ := buildAndSign_fields hb
    rw [hn, hs]
    exact ⟨sortPfxs_sorted _, sortPfxs_sorted _⟩
  · intro t1 t2 signer curve chk sp hperm hchk
    have heq := signWithPredicate_permEquiv signer curve sp hperm hchk
    refine ⟨heq, fun sc1 sc2 h1 h2 => ?_⟩
    rw [heq] at h1
    rw [h1] at h2
    injection h2 with h3
    rw [h3]

/-- Witness for C2: a concrete unsorted builder signs to a certificate with
sorted networks. -/
theorem c2_witness :
    (SignedCert.networksOf scW2).Pairwise pfxLe ∧
    (SignedCert.subnetsOf scW2).Pairwise pfxLe :=
  c2_canonical_order.1 tW2 none 0 chkW spW scW2 rfl

/-- C9: a successful `SignWithPredicate` run mutates the caller's builder in
place — the networks and unsafe-networks backing slices are sorted through the
caller's own (unchanged) slice identities, and the private issuer field is set
to the supplied issuer's fingerprint — and the sealed `certificateV1` aliases
the builder's Networks, UnsafeNetworks, Groups and PublicKey slices, so a later
write through the certificate's identity is read back at the caller's. -/
theorem c9_sign_aliasing (t : TBSRef) (signer : Option SignedCert) (curve : Nat)
    (chk : ConstraintChecker) (sp : SignerPred) (h : HeapC9)
    (c : certificateV1Ref) (t' : TBSRef) (h' : HeapC9)
    (hne : t.NetworksRef ≠ t.SubnetsRef)
    (hok : signWithPredicateRef t signer curve chk sp h = .ok (c, t', h')) :
    C9Post t signer h c t' h' := by
  unfold signWithPredicateRef at hok
  split at hok
  · exact absurd hok (by simp)
  · split at hok
    · exact absurd hok (by simp)
    · rename_i iss hiss
      split at hok
      · split at hok
        · exact absurd hok (by simp)
        · split at hok
          · exact absurd hok (by simp)
          · simp only [Except.ok.injEq, Prod.mk.injEq] at hok
            obtain ⟨hc, ht', hh'⟩ := hok
            subst hc; subst ht'; subst hh'
            refine ⟨⟨rfl, rfl, rfl, rfl⟩, ⟨?_, ?_⟩, ?_, ?_, ⟨rfl, rfl, rfl, rfl⟩, ?_⟩
            · simp [sortHeapAt, writePfx, hne]
            · simp [sortHeapAt, writePfx, Ne.symm hne]
            · intro s hs
              subst hs
              simp only [issuerStepRef] at hiss
              split at hiss
              · exact absurd hiss (by simp)
              · split at hiss
                · exact absurd hiss (by simp)
                · split at hiss
                  · exact absurd hiss (by simp)
                  · rename_i fp hfp
                    simp only [Except.ok.injEq] at hiss
                    rw [hfp, hiss]
            · intro hs
              subst hs
              simp only [issuerStepRef] at hiss
              split at hiss
              · simp only [Except.ok.injEq] at hiss
                exact hiss.symm
              · exact absurd hiss (by simp)
            · intro v
              simp [writePfx, fromTBSCertificateRef]
      · exact absurd hok (by simp)

/-- Witness for C9: a concrete run over a two-element unsorted networks slice. -/
theorem c9_witness : C9Post tR0 none h0W cR0 tR0p h2W :=
  c9_sign_aliasing tR0 none 0 chkW spW h0W cR0 tR0p h2W (by decide) rfl

/-- Witness for C5's amended statement: the concrete decode run satisfies the
copy-over characterisation. -/
theorem c5_witness :
    cCX5.details.publicKey = goCopy [9, 9] rdCX5.PublicKey ∧
    (rdCX5.PublicKey = [] → cCX5.details.publicKey = [9, 9]) :=
  c5_public_key_fill_amended bCX5 rdCX5 [9, 9] cCX5 rfl (by decide) rfl

theorem hexDigitVal_digitChar : ∀ d : Nat, d < 16 →
    hexDigitVal (Nat.digitChar d) = some d := by decide

/-- Decoding inverts encoding on byte strings. -/
theorem hexDecodeChars_encode (bs : List Nat) (h : ∀ b ∈ bs, b < 256) :
    hexDecodeChars (bs.flatMap fun b =>
      [Nat.digitChar (b / 16 % 16), Nat.digitChar (b % 16)]) = bs := by
  induction bs with
  | nil => rfl
  | cons b rest ih =>
    have hb : b < 256 := h b (by simp)
    have hd1 : hexDigitVal (Nat.digitChar (b / 16 % 16)) = some (b / 16 % 16) :=
      hexDigitVal_digitChar _ (Nat.mod_lt _ (by norm_num))
    have hd2 : hexDigitVal (Nat.digitChar (b % 16)) = some (b % 16) :=
      hexDigitVal_digitChar _ (Nat.mod_lt _ (by norm_num))
    have hrest := ih (fun x hx => h x (by simp [hx]))
    simp only [List.flatMap_cons, List.cons_append, List.nil_append]
    rw [hexDecodeChars, hd1, hd2, hrest]
    have hbv : 16 * (b / 16 % 16) + b % 16 = b := by omega
    dsimp only
    rw [hbv]

theorem hexDecode_hexEncode (bs : List Nat) (h : ∀ b ∈ bs, b < 256) :
    hexDecode (hexEncode bs) = bs :=
  hexDecodeChars_encode bs h

/-- The 32-bit mask round trip: building a canonical mask and reading back its
leading-ones count is the identity on `0..32`. -/
theorem mask_roundtrip : ∀ o : Nat, o < 33 →
    ((cidrMask (o : Int) 32).bind fun m =>
      (ip2int m).bind fun mi => maskOnes (int2ip mi)) = some o := by
  decide

/-- One canonical prefix encodes to a pair that decodes back to it. -/
theorem rawPairOf_canonical {p : NetPfx} (hp : PfxCanonical p) :
    ∃ n mi, rawPairOf p = some (n, mi) ∧
      pfxFrom (int2addr n)
        (((maskOnes (int2ip mi)).getD 0 : Nat) : Int) = p := by
  obtain ⟨n, ha, hn, hb0, hb32⟩ := hp
  have hbl : p.addr.bitLen = 32 := by rw [ha]; rfl
  have hone : ((p.bits.toNat : Nat) : Int) = p.bits := Int.toNat_of_nonneg hb0
  have hlt : p.bits.toNat < 33 := by omega
  have hmask := mask_roundtrip p.bits.toNat hlt
  rw [hone] at hmask
  obtain ⟨m, hm, hrest⟩ := Option.bind_eq_some.mp hmask
  obtain ⟨mi, hmi, hones⟩ := Option.bind_eq_some.mp hrest
  have hn' : n < 4294967296 := by simpa using hn
  have ha2 : addr2int p.addr = some n := by
    rw [ha]
    simp [addr2int, NetipAddr.unmap, NetipAddr.as4, Nat.mod_eq_of_lt hn']
  refine ⟨n, mi, ?_, ?_⟩
  · unfold rawPairOf
    rw [hbl, ha2, hm]
    simp [hmi]
  · rw [hones]
    simp only [Option.getD_some]
    rw [hone]
    unfold int2addr
    rw [Nat.mod_eq_of_lt hn]
    show pfxFrom ((NetipAddr.v4 n).unmap) p.bits = p
    unfold NetipAddr.unmap pfxFrom
    rw [if_pos ⟨hb0, by rw [show (NetipAddr.v4 n).bitLen = 32 from rfl]; exact hb32⟩]
    cases p
    simp_all

/-- A canonical prefix list flattens to a pair list that decodes back to it. -/
theorem encodePairs_roundtrip {ps : List NetPfx}
    (h : ∀ p ∈ ps, PfxCanonical p) :
    ∃ l, encodePairs ps = some l ∧ decodePairs l = ps ∧
      l.length = 2 * ps.length := by
  induction ps with
  | nil => exact ⟨[], rfl, rfl, rfl⟩
  | cons p rest ih =>
    obtain ⟨l, hel, hdl, hll⟩ := ih fun q hq => h q (by simp [hq])
    obtain ⟨n, mi, hraw, hdec⟩ := rawPairOf_canonical (h p (by simp))
    refine ⟨n :: mi :: l, ?_, ?_, ?_⟩
    · simp [encodePairs, hraw, hel]
    · rw [decodePairs, hdec, hdl]
    · simp [hll]
      omega

/-- Copying a byte list into a fresh zero buffer of its own length is the
identity (the decoder's no-override path). -/
theorem goCopy_replicate (l : List Nat) :
    goCopy (List.replicate l.length 0) l = l := by
  simp [goCopy]

/-- Copying nothing leaves the destination unchanged (the decoder's
handshake-form path). -/
theorem goCopy_nil_src (dst : List Nat) : goCopy dst [] = dst := by
  simp [goCopy]

/-- The workhorse: marshalling canonical details succeeds, and decoding the
result reproduces the details up to the issuer re-encoding and the public-key
fill. -/
theorem getRawDetails_roundtrip (d : detailsV1) (sig pk : List Nat)
    (h1 : ∀ p ∈ d.networks, PfxCanonical p)
    (h2 : ∀ p ∈ d.subnets, PfxCanonical p) :
    ∃ rd, getRawDetails d = some rd ∧ rd.PublicKey = d.publicKey ∧
      rd.Issuer = hexDecode d.issuer ∧
      unmarshalCertificateV1 ⟨some rd, sig⟩ pk = .ok
        { details :=
            { d with issuer := hexEncode (hexDecode d.issuer),
                     publicKey := goCopy (if 0 < pk.length then pk
                       else List.replicate d.publicKey.length 0) d.publicKey },
          signature := sig } := by
  obtain ⟨l1, he1, hd1, hl1⟩ := encodePairs_roundtrip h1
  obtain ⟨l2, he2, hd2, hl2⟩ := encodePairs_roundtrip h2
  refine ⟨{ Name := d.name, Ips := l1, Subnets := l2, Groups := d.groups,
            NotBefore := d.notBefore, NotAfter := d.notAfter,
            PublicKey := d.publicKey, IsCA := d.isCA,
            Issuer := hexDecode d.issuer, Curve := d.curve }, ?_, rfl, rfl, ?_⟩
  · simp [getRawDetails, he1, he2]
  · unfold unmarshalCertificateV1
    rw [if_neg (by simp [emptyWire])]
    simp only
    rw [if_neg (by rw [hl1]; omega), if_neg (by rw [hl2]; omega)]
    rw [hd1, hd2]

/-- A canonical certificate marshals and decodes back to itself (no
out-of-band key). -/
theorem unmarshal_marshal_canonical (c : certificateV1) (hc : CertCanonical c) :
    ∃ rc, Marshal c = some rc ∧ unmarshalCertificateV1 rc [] = .ok c := by
  obtain ⟨h1, h2, bs, hbs, hiss⟩ := hc
  obtain ⟨rd, hrd, hpk, hrdiss, hdec⟩ :=
    getRawDetails_roundtrip c.details c.signature [] h1 h2
  refine ⟨⟨some rd, c.signature⟩, by simp [Marshal, hrd], ?_⟩
  rw [hdec]
  have hround : hexEncode (hexDecode c.details.issuer) = c.details.issuer := by
    rw [hiss, hexDecode_hexEncode bs hbs]
  have hkey : goCopy (if 0 < ([] : List Nat).length then []
      else List.replicate c.details.publicKey.length 0) c.details.publicKey =
      c.details.publicKey := by
    simp [goCopy_replicate]
  rw [hround, hkey]

/-- `MarshalForHandshakes`, when the embedded `Marshal` succeeds: the envelope
contains no public key and the receiver is restored to its original value. -/
theorem marshalForHandshakes_eq (c : certificateV1) (rc : RawNebulaCertificate)
    (h : Marshal { c with details := { c.details with publicKey := [] } } = some rc) :
    MarshalForHandshakes c = some (rc, c) := by
  obtain ⟨⟨name, networks, subnets, groups, nb, na, pk, isCA, issuer, curve⟩, sig⟩ := c
  simp only [MarshalForHandshakes]
  rw [h]

/-- A canonical certificate survives the handshake marshal: the call restores
the receiver and its output decodes (with the original key out-of-band) back to
the original certificate. -/
theorem unmarshal_handshake_canonical (c : certificateV1)
    (hc : CertCanonical c) :
    ∃ r c2, MarshalForHandshakes c = some (r, c2) ∧
      unmarshalCertificateV1 r c.details.publicKey = .ok c := by
  obtain ⟨⟨name, networks, subnets, groups, nb, na, pk, isCA, issuer, curve⟩, sig⟩ := c
  obtain ⟨h1, h2, bs, hbs, hiss⟩ := hc
  obtain ⟨rd, hrd, hpk, hrdiss, hdec⟩ :=
    getRawDetails_roundtrip
      ⟨name, networks, subnets, groups, nb, na, [], isCA, issuer, curve⟩
      sig pk h1 h2
  have hiss' : issuer = hexEncode bs := hiss
  have hround : hexEncode (hexDecode issuer) = issuer := by
    rw [hiss', hexDecode_hexEncode bs hbs]
  refine ⟨⟨some rd, sig⟩,
    ⟨⟨name, networks, subnets, groups, nb, na, pk, isCA, issuer, curve⟩, sig⟩,
    ?_, ?_⟩
  · exact marshalForHandshakes_eq _ _ (by dsimp only; simp [Marshal, hrd])
  · rw [hdec]
    simp [hround]
    rcases pk with _ | ⟨x, xs⟩ <;> simp [goCopy]

theorem leadingOnesByte_le {b k : Nat} (h : leadingOnesByte b = some k) :
    k ≤ 8 := by
  have hm := List.mem_of_find?_eq_some h
  have := List.mem_range.mp hm
  omega

theorem maskOnes_le {l : List Nat} {k : Nat} (h : maskOnes l = some k) :
    k ≤ 8 * l.length := by
  induction l generalizing k with
  | nil =>
    simp [maskOnes] at h
    omega
  | cons b rest ih =>
    unfold maskOnes at h
    split at h
    · obtain ⟨k2, hk2, rfl⟩ := Option.map_eq_some.mp h
      have := ih hk2
      simp
      omega
    · split at h
      · rename_i k3 hk3
        split at h
        · simp only [Option.some.injEq] at h
          subst h
          have := leadingOnesByte_le hk3
          simp
          omega
        · exact absurd h (by simp)
      · exact absurd h (by simp)

/-- Every prefix the decoder produces is canonical. -/
theorem decodePairs_canonical : ∀ (l : List Nat), ∀ p ∈ decodePairs l, PfxCanonical p
  | [] => by simp [decodePairs]
  | [a] => by simp [decodePairs]
  | a :: mi :: rest => by
    intro p hp
    rw [decodePairs] at hp
    rcases List.mem_cons.mp hp with rfl | hp
    · have hones : (maskOnes (int2ip mi)).getD 0 ≤ 32 := by
        rcases hmo : maskOnes (int2ip mi) with _ | k
        · simp
        · have := maskOnes_le hmo
          simp only [int2ip, List.length_cons, List.length_nil] at this
          simp
          omega
      have h0le : (0 : Int) ≤ (((maskOnes (int2ip mi)).getD 0 : Nat) : Int) :=
        Int.natCast_nonneg _
      have hle32 : (((maskOnes (int2ip mi)).getD 0 : Nat) : Int) ≤
          ((NetipAddr.v4 (a % 2 ^ 32)).bitLen : Int) := by
        show _ ≤ ((32 : Nat) : Int)
        exact_mod_cast hones
      rw [show int2addr a = NetipAddr.v4 (a % 2 ^ 32) from rfl]
      unfold pfxFrom
      rw [if_pos ⟨h0le, hle32⟩]
      refine ⟨a % 2 ^ 32, rfl, Nat.mod_lt _ (by norm_num), h0le, ?_⟩
      show (((maskOnes (int2ip mi)).getD 0 : Nat) : Int) ≤ 32
      exact_mod_cast hones
    · exact decodePairs_canonical rest p hp

/-- Every certificate the decoder produces from a well-formed wire is
canonical. -/
theorem unmarshal_canonical {b : RawNebulaCertificate} {pk : List Nat}
    {c : certificateV1} (hwf : WfWire b)
    (hu : unmarshalCertificateV1 b pk = .ok c) : CertCanonical c := by
  unfold unmarshalCertificateV1 at hu
  split at hu
  · exact absurd hu (by simp)
  · split at hu
    · exact absurd hu (by simp)
    · rename_i rd hd
      split at hu
      · exact absurd hu (by simp)
      · split at hu
        · exact absurd hu (by simp)
        · simp only [Except.ok.injEq] at hu
          subst hu
          refine ⟨decodePairs_canonical rd.Ips, decodePairs_canonical rd.Subnets,
            rd.Issuer, ?_, rfl⟩
          simpa [WfWire, hd] using hwf

theorem sha256Model_bytes (rc : RawNebulaCertificate) :
    ∀ x ∈ sha256Model rc, x < 256 := by
  intro x hx
  simp only [sha256Model, List.mem_map] at hx
  obtain ⟨i, -, rfl⟩ := hx
  exact Nat.mod_lt _ (by norm_num)

theorem sha256V2Model_bytes (c : certificateV2) :
    ∀ x ∈ sha256V2Model c, x < 256 := by
  intro x hx
  simp only [sha256V2Model, List.mem_map] at hx
  obtain ⟨i, -, rfl⟩ := hx
  exact Nat.mod_lt _ (by norm_num)

/-- Every fingerprint is a canonical (lowercase hex) issuer string. -/
theorem fingerprintSC_canonical {s : SignedCert} {fp : String}
    (h : fingerprintSC s = some fp) : IssuerCanonical fp := by
  cases s with
  | v1 c =>
    simp only [fingerprintSC, Fingerprint] at h
    obtain ⟨rc, -, rfl⟩ := Option.map_eq_some.mp h
    exact ⟨sha256Model rc, sha256Model_bytes rc, rfl⟩
  | v2 c =>
    simp only [fingerprintSC, Option.some.injEq] at h
    exact ⟨sha256V2Model c, sha256V2Model_bytes c, h.symm⟩

/-- The issuer value a successful issuer step installs is canonical, provided
the builder's own (normally zero-valued) issuer field is. -/
theorem issuerStep_canonical {t : TBSCertificate} {signer : Option SignedCert}
    {chk : ConstraintChecker} {iss : String}
    (h : issuerStep t signer chk = .ok iss)
    (hc : IssuerCanonical t.issuer) : IssuerCanonical iss := by
  cases signer with
  | none =>
    simp only [issuerStep] at h
    split at h
    · simp only [Except.ok.injEq] at h
      subst h
      exact hc
    · exact absurd h (by simp)
  | some s =>
    simp only [issuerStep] at h
    split at h
    · exact absurd h (by simp)
    · split at h
      · exact absurd h (by simp)
      · split at h
        · exact absurd h (by simp)
        · rename_i fp hfp
          simp only [Except.ok.injEq] at h
          subst h
          exact fingerprintSC_canonical hfp

/-- A successful V1 `buildAndSign` copies the (sorted) builder verbatim. -/
theorem buildAndSign_v1_details {t1 : TBSCertificate} {sp : SignerPred}
    {c : certificateV1} (h : buildAndSign t1 sp = .ok (.v1 c)) :
    c.details = fromTBSCertificate t1 := by
  unfold buildAndSign at h
  split at h
  · split at h
    · exact absurd h (by simp)
    · split at h
      · exact absurd h (by simp)
      · simp only [Except.ok.injEq, SignedCert.v1.injEq] at h
        rw [← h]
  · split at h
    · exact absurd h (by simp)
    · simp at h
  · exact absurd h (by simp)

/-- Every V1 certificate produced by signing a builder with canonical networks
and a canonical issuer field is canonical. -/
theorem signWithPredicate_v1_canonical {t : TBSCertificate}
    {signer : Option SignedCert} {curve : Nat} {chk : ConstraintChecker}
    {sp : SignerPred} {c : certificateV1}
    (h : signWithPredicate t signer curve chk sp = .ok (.v1 c))
    (h1 : ∀ p ∈ t.Networks, PfxCanonical p)
    (h2 : ∀ p ∈ t.Subnets, PfxCanonical p)
    (hiss : IssuerCanonical t.issuer) : CertCanonical c := by
  obtain ⟨iss, hstep, hb⟩ := signWithPredicate_ok_destruct h
  have hdet := buildAndSign_v1_details hb
  refine ⟨?_, ?_, ?_⟩
  · rw [hdet]
    intro p hp
    exact h1 p ((sortPfxs_perm t.Networks).mem_iff.mp hp)
  · rw [hdet]
    intro p hp
    exact h2 p ((sortPfxs_perm t.Subnets).mem_iff.mp hp)
  · rw [hdet]
    exact issuerStep_canonical hstep hiss

/-- C1 (amended): decoding inverts marshalling for every certificate produced
by `unmarshalCertificateV1` (from a well-formed wire, any out-of-band key), and
for every certificate produced by signing a builder whose networks and
unsafe-networks are pure IPv4 prefixes and whose issuer field is canonical
(as the zero value always is); the decoded lists — unsafe-networks included —
come back in wire order, unsorted, since exact equality with the marshalled
certificate is recovered. -/
theorem c1_roundtrip_amended :
    (∀ (b : RawNebulaCertificate) (pk : List Nat) (c : certificateV1),
      WfWire b → unmarshalCertificateV1 b pk = .ok c →
      ∃ rc, Marshal c = some rc ∧ unmarshalCertificateV1 rc [] = .ok c) ∧
    (∀ (t : TBSCertificate) (signer : Option SignedCert) (curve : Nat)
      (chk : ConstraintChecker) (sp : SignerPred) (c : certificateV1),
      signWithPredicate t signer curve chk sp = .ok (.v1 c) →
      (∀ p ∈ t.Networks, PfxCanonical p) → (∀ p ∈ t.Subnets, PfxCanonical p) →
      IssuerCanonical t.issuer →
      ∃ rc, Marshal c = some rc ∧ unmarshalCertificateV1 rc [] = .ok c) := by
  constructor
  · intro b pk c hwf hu
    exact unmarshal_marshal_canonical c (unmarshal_canonical hwf hu)
  · intro t signer curve chk sp c h h1 h2 hiss
    exact unmarshal_marshal_canonical c
      (signWithPredicate_v1_canonical h h1 h2 hiss)

/-- Witness for C1 at a concrete wire envelope. -/
theorem c1_witness :
    ∃ rc, Marshal cW1 = some rc ∧ unmarshalCertificateV1 rc [] = .ok cW1 :=
  c1_roundtrip_amended.1 bW1 [] cW1 (by decide) rfl

/-- Counterexample to C1 as stated: signing a builder with an IPv4-mapped IPv6
network succeeds and marshals, but decoding the marshalled bytes yields the
pure IPv4 form of the network — a certificate differing from the signed one. -/
theorem c1_counterexample :
    signWithPredicate tCX1 none 0 chkW spW = .ok (.v1 cCX1) ∧
    Marshal cCX1 = some rcCX1 ∧
    unmarshalCertificateV1 rcCX1 [] = .ok cCX1d ∧
    cCX1d ≠ cCX1 :=
  ⟨rfl, rfl, rfl, by decide⟩

/-- C6 (amended): `MarshalForHandshakes` always restores the receiver — after
any returning call the certificate (its public key included) equals its value
before the call; and for every canonical certificate the output decodes, with
the original public key supplied out-of-band, back to a certificate equal in
every observable field. -/
theorem c6_handshake_marshal_amended :
    (∀ (c : certificateV1) (r : RawNebulaCertificate) (c2 : certificateV1),
      MarshalForHandshakes c = some (r, c2) → c2 = c) ∧
    (∀ c : certificateV1, CertCanonical c →
      ∃ r c2, MarshalForHandshakes c = some (r, c2) ∧
        unmarshalCertificateV1 r c.details.publicKey = .ok c) := by
  constructor
  · intro c r c2 h
    obtain ⟨⟨name, networks, subnets, groups, nb, na, pk, isCA, issuer, curve⟩, sig⟩ := c
    simp only [MarshalForHandshakes] at h
    split at h
    · exact absurd h (by simp)
    · simp only [Option.some.injEq, Prod.mk.injEq] at h
      exact h.2.symm
  · exact unmarshal_handshake_canonical

/-- Witness for C6's amended round-trip part at a concrete certificate. -/
theorem c6_witness :
    ∃ r c2, MarshalForHandshakes cW1 = some (r, c2) ∧
      unmarshalCertificateV1 r cW1.details.publicKey = .ok cW1 := by
  refine c6_handshake_marshal_amended.2 cW1 ⟨?_, ?_, [171], by decide, by decide⟩
  · intro p hp
    simp [cW1] at hp
    subst hp
    exact ⟨1, rfl, by norm_num, by norm_num, by norm_num⟩
  · intro p hp
    simp [cW1] at hp

/-- Counterexample to C6 as stated: a certificate whose issuer field is
uppercase hex survives `MarshalForHandshakes`, but decoding its output (with
the original public key out-of-band) re-encodes the issuer in lowercase, so the
decoded certificate differs. -/
theorem c6_counterexample :
    MarshalForHandshakes cCX6 = some (rcCX6, cCX6) ∧
    unmarshalCertificateV1 rcCX6 cCX6.details.publicKey ≠ .ok cCX6 :=
  ⟨rfl, by decide⟩

end NebulaCert
